import Mathlib

/-!
# MyLedger: verification of the ledger / bill-scheduling core

Shallow embedding of the domain logic of `app/db.py`:
calendar dates are `(year, month, day)` triples ordered lexicographically
(mirroring Python `datetime.date` comparison); for the pay-window arithmetic,
which only ever adds day counts and subtracts dates, dates are modelled by
their ordinal day numbers as `Int` (Python date subtraction yields a day
count and `timedelta` addition shifts the ordinal).  Monetary `Decimal`
values are modelled as `ℚ` (exact arithmetic).  Database tables are lists of
records; each SQL statement of the source is translated to the corresponding
list operation.  Python exceptions are modelled by `Except`: because the
connection pool runs in autocommit mode, the error value carries the state
committed before the raise.
-/

namespace MyLedger

/-- Calendar date, mirroring Python `datetime.date`.  Comparison of Python
dates is lexicographic on `(year, month, day)`. -/
structure Date where
  year : Nat
  month : Nat
  day : Nat
deriving DecidableEq

/-- `a <= b` for Python dates: lexicographic on (year, month, day). -/
def Date.le (a b : Date) : Prop :=
  a.year < b.year ∨ (a.year = b.year ∧ a.month < b.month) ∨
    (a.year = b.year ∧ a.month = b.month ∧ a.day ≤ b.day)

/-- `a < b` for Python dates: lexicographic on (year, month, day). -/
def Date.lt (a b : Date) : Prop :=
  a.year < b.year ∨ (a.year = b.year ∧ a.month < b.month) ∨
    (a.year = b.year ∧ a.month = b.month ∧ a.day < b.day)

instance (a b : Date) : Decidable (a.le b) := by
  unfold Date.le; infer_instance

instance (a b : Date) : Decidable (a.lt b) := by
  unfold Date.lt; infer_instance

/-- `_last_dom(y, m)` from `app/db.py`: days in month `m` of year `y`,
with the Gregorian leap rule. -/
def last_dom (y m : Nat) : Nat :=
  if m = 1 ∨ m = 3 ∨ m = 5 ∨ m = 7 ∨ m = 8 ∨ m = 10 ∨ m = 12 then 31
  else if m = 4 ∨ m = 6 ∨ m = 9 ∨ m = 11 then 30
  else if y % 400 = 0 ∨ (y % 4 = 0 ∧ y % 100 ≠ 0) then 29
  else 28

/-- A `Date` that Python's `date` constructor accepts (9999-year cap aside,
which none of the functions here inspect). -/
def Date.valid (d : Date) : Prop :=
  1 ≤ d.month ∧ d.month ≤ 12 ∧ 1 ≤ d.day ∧ d.day ≤ last_dom d.year d.month

instance (d : Date) : Decidable d.valid := by
  unfold Date.valid; infer_instance

/-- `_next_monthly_due(dom, from_date)` from `app/db.py`.  The raw `dom` is
clamped to `[1, 31]`; the branch test compares `from_date.day` with the raw
(clamped-to-31) request, and only the constructed day is clamped to the
target month's length. -/
def next_monthly_due (dom : Int) (fd : Date) : Date :=
  let dom' : Nat := (max 1 (min 31 dom)).toNat
  if fd.day ≤ dom' then
    ⟨fd.year, fd.month, min dom' (last_dom fd.year fd.month)⟩
  else
    let ny := fd.year + (if fd.month = 12 then 1 else 0)
    let nm := if fd.month = 12 then 1 else fd.month + 1
    ⟨ny, nm, min dom' (last_dom ny nm)⟩

/-- `_next_yearly_due(month, dom, from_date)` from `app/db.py`. -/
def next_yearly_due (month dom : Int) (fd : Date) : Date :=
  let m : Nat := (max 1 (min 12 month)).toNat
  let d : Nat := (max 1 (min 31 dom)).toNat
  let tryThis : Date := ⟨fd.year, m, min d (last_dom fd.year m)⟩
  if fd.le tryThis then tryThis
  else ⟨fd.year + 1, m, min d (last_dom (fd.year + 1) m)⟩

/-- `get_pay_window` from `app/db.py`, after the anchor has been read from
`pay_schedule` (the claim quantifies over the anchor).  Dates are modelled
by ordinal day numbers; `//` in Python is floor division, i.e. `Int.fdiv`. -/
def get_pay_window (anchor today : Int) : Int × Int :=
  let step : Int := 14
  let days := today - anchor
  let k := Int.fdiv days step
  let start := anchor + step * k
  (start, start + 13)

/-- Python `str.lower()` (per-character case folding, as applied to the
label tables). -/
def pyLower (s : String) : String := ⟨s.data.map Char.toLower⟩

/-- Python `str.strip()`: drop whitespace from both ends. -/
def pyStrip (s : String) : String :=
  ⟨((s.data.dropWhile Char.isWhitespace).reverse.dropWhile Char.isWhitespace).reverse⟩

/-- `s.startswith(p)` for Python strings (also `LIKE 'p%'` in SQL). -/
def strStarts (s p : String) : Bool := p.data.isPrefixOf s.data

/-- Strict code-point lexicographic order on character lists: Python `<`
on strings, and the SQL `ORDER BY` on a text column. -/
def charListLt : List Char → List Char → Bool
  | [], [] => false
  | [], _ :: _ => true
  | _ :: _, [] => false
  | a :: as, b :: bs => if a = b then charListLt as bs else decide (a < b)

/-- A row of `transactions`.  `amount` is the fixed-point decimal in cents
(2 implied decimals); `pending` is the 0/1 column as a `Bool`. -/
structure Txn where
  id : Nat
  acc_id : Nat
  c_id : Int
  pending : Bool
  type_id : Nat
  name : String
  method : Nat
  cat : Nat
  amount : Int
  occurred_on : Date
deriving DecidableEq

/-- The balance pair computed by `account_header` for one account:
`(posted, available)`.  `posted` sums `CASE WHEN t.pending = 0 THEN t.amount
ELSE 0 END`; `available` sums every row's amount. -/
def account_header (balance : Int) (txns : List Txn) : Int × Int :=
  (balance + (txns.map fun t => if t.pending then 0 else t.amount).sum,
   balance + (txns.map Txn.amount).sum)

/-- `SELECT type FROM trans_type WHERE id=%s`, then
`(row[0] if row else "")` — first matching row's label, or `""`. -/
def lookup_type_text (tbl : List (Nat × String)) (type_id : Nat) : String :=
  match tbl.find? fun p => decide (p.1 = type_id) with
  | some p => p.2
  | none => ""

/-- `_normalized_amount_for_type` from `app/db.py`: absolute value first,
then sign decided by the (stripped, lowered) type label. -/
def normalized_amount_for_type (tbl : List (Nat × String)) (amount : Int)
    (type_id : Nat) : Int :=
  let amt := |amount|
  let ttxt := pyLower (pyStrip (lookup_type_text tbl type_id))
  if strStarts ttxt "expense" then -amt
  else if strStarts ttxt "deposit" then amt
  else amt

/-- A row of `bills`. -/
structure Bill where
  id : Nat
  payee : String
  frequency : String
  amount_due : Int
  total_debt : Int
  account_id : Option Nat
  due_day : Option Nat
  due_month : Option Nat
  due_dom : Option Nat
  active : Bool
  notes : String
deriving DecidableEq

/-- A row of `bill_payments` (`paid_at` is the nullable timestamp column). -/
structure Payment where
  bill_id : Nat
  due_date : Date
  amount : Int
  paid_at : Option Nat
  ignored : Bool
deriving DecidableEq

/-- The database state touched by the bill/ledger operations. -/
structure DB where
  trans_type : List (Nat × String)
  trans_method : List (Nat × String)
  trans_cat : List (Nat × String)
  bills : List Bill
  payments : List Payment
  txns : List Txn
deriving DecidableEq

/-- The `(bill_id, due_date)` key test on a `bill_payments` row. -/
def payKey (bid : Nat) (due : Date) (p : Payment) : Bool :=
  decide (p.bill_id = bid ∧ p.due_date = due)

/-- `INSERT ... ON CONFLICT (bill_id, due_date) DO UPDATE` against
`bill_payments`: update the rows matching the key (the unique constraint
guarantees there is at most one), otherwise append the fresh row. -/
def upsert_payment (ps : List Payment) (bid : Nat) (due : Date)
    (upd : Payment → Payment) (ins : Payment) : List Payment :=
  if ps.any (payKey bid due) then
    ps.map fun p => if payKey bid due p then upd p else p
  else ps ++ [ins]

/-- `_is_bill_paid`: a `bill_payments` row for the pair exists. -/
def is_bill_paid (db : DB) (bill_id : Nat) (due_date : Date) : Bool :=
  db.payments.any (payKey bill_id due_date)

/-- `_is_bill_ignored`: a row for the pair exists with `ignored=TRUE`. -/
def is_bill_ignored (db : DB) (bill_id : Nat) (due_date : Date) : Bool :=
  db.payments.any fun p => payKey bill_id due_date p && p.ignored

/-- `set_bill_ignored` from `app/db.py`: upsert with zero amount and no
`paid_at` on insert, and only the `ignored` column updated on conflict. -/
def set_bill_ignored (db : DB) (bill_id : Nat) (due_date : Date)
    (ignored : Bool) : DB :=
  { db with payments :=
      (upsert_payment db.payments bill_id due_date
        (fun p => { p with ignored := ignored })
        ⟨bill_id, due_date, 0, none, ignored⟩) }

/-- `next_order_index`: `MAX(c_id)` over the account (0 when `NULL`), plus
10. -/
def next_order_index (txns : List Txn) (account_id : Nat) : Int :=
  (((txns.filter fun t => decide (t.acc_id = account_id)).map Txn.c_id).max?.getD 0) + 10

/-- The serial `id` handed out by `RETURNING id` for a fresh transaction
row, modelled as one more than the largest existing id. -/
def next_txn_id (txns : List Txn) : Nat := ((txns.map Txn.id).max?.getD 0) + 1

/-- `add_transaction` from `app/db.py`: normalizes the sign by type, stamps
the manual ordering key, and inserts the row.  `method_id or 0` maps both
`None` and 0 to 0, i.e. `Option.getD 0`. -/
def add_transaction (db : DB) (account_id type_id : Nat) (name : String)
    (method_id cat_id : Option Nat) (amount : Int) (occurred_on : Date)
    (pending : Bool) : DB :=
  let order_index := next_order_index db.txns account_id
  let amt := normalized_amount_for_type db.trans_type amount type_id
  { db with txns := db.txns ++
      [⟨next_txn_id db.txns, account_id, order_index, pending, type_id, name,
        method_id.getD 0, cat_id.getD 0, amt, occurred_on⟩] }

/-- `_lookup_id` applied to `LOWER(type) LIKE 'expense%'`, with
`default_val=1` when no row matches. -/
def lookup_expense_id (tbl : List (Nat × String)) : Nat :=
  match tbl.find? fun p => strStarts (pyLower p.2) "expense" with
  | some p => p.1
  | none => 1

/-- `_lookup_by_text`: first id whose label matches case-insensitively,
else `None`. -/
def lookup_by_text (tbl : List (Nat × String)) (v : String) : Option Nat :=
  (tbl.find? fun p => decide (pyLower p.2 = pyLower v)).map Prod.fst

/-- `mark_bill_paid` from `app/db.py`.  `now` is the `NOW()` timestamp.
The payment row is upserted first; then, unconditionally, a ledger
transaction is created on the bill's linked account.  When the bill has no
linked account, `int(account_id)` raises `TypeError`; the pool runs in
autocommit mode, so the statements already executed stay committed — the
`Except.error` value carries that partially updated state. -/
def mark_bill_paid (db : DB) (bill_id : Nat) (due_date : Date) (now : Nat) :
    Except DB DB :=
  match db.bills.find? fun b => decide (b.id = bill_id) with
  | none => .ok db
  | some b =>
    let db1 := { db with payments :=
      (upsert_payment db.payments bill_id due_date
        (fun p => { p with amount := b.amount_due, paid_at := some now, ignored := false })
        ⟨bill_id, due_date, b.amount_due, some now, false⟩) }
    match b.account_id with
    | none => .error db1
    | some acc =>
      let expense_id := lookup_expense_id db1.trans_type
      let method_id := lookup_by_text db1.trans_method "N/A"
      let cat_id := lookup_by_text db1.trans_cat "Bills"
      .ok (add_transaction db1 acc expense_id b.payee method_id cat_id
        b.amount_due due_date false)

/-- Two consecutive `mark_bill_paid` calls on the same pair (an exception
in the first call propagates, as in Python). -/
def mark_bill_paid_twice (db : DB) (bill_id : Nat) (due_date : Date)
    (now1 now2 : Nat) : Except DB DB :=
  (mark_bill_paid db bill_id due_date now1).bind
    fun db1 => mark_bill_paid db1 bill_id due_date now2

/-- Number of `bill_payments` rows carrying the `(bill_id, due_date)` key. -/
def count_pair (ps : List Payment) (bid : Nat) (due : Date) : Nat :=
  (ps.filter (payKey bid due)).length

/-- Insert `x` before the first element `y` with `lt x y`: one step of a
stable insertion sort. -/
def insertSorted (lt : α → α → Bool) (x : α) : List α → List α
  | [] => [x]
  | y :: ys => if lt x y then x :: y :: ys else y :: insertSorted lt x ys

/-- Stable sort standing in for SQL `ORDER BY` and Python `list.sort`. -/
def sortBy (lt : α → α → Bool) (l : List α) : List α :=
  l.foldl (fun acc x => insertSorted lt x acc) []

/-- Python truthiness of a nullable integer column (`None` and 0 falsy). -/
def truthy (o : Option Nat) : Bool := decide (o.getD 0 ≠ 0)

/-- One element of the `upcoming_bills` result: the bill row plus the
`next_due` / `paid` / `ignored` keys added by the loop. -/
structure UpcomingEntry where
  bill : Bill
  next_due : Date
  paid : Bool
  ignored : Bool
deriving DecidableEq

/-- Python sort key `(r["next_due"], r["payee"].lower())`, strictly. -/
def entryLt (e1 e2 : UpcomingEntry) : Bool :=
  if e1.next_due = e2.next_due then
    charListLt (pyLower e1.bill.payee).data (pyLower e2.bill.payee).data
  else decide (e1.next_due.lt e2.next_due)

/-- `upcoming_bills` from `app/db.py`: active bills (`list_bills` orders by
payee), each annotated with its next due date computed from the window
start, kept when the due date falls inside the window, with paid/ignored
flags attached, sorted by `(next_due, payee.lower())`. -/
def upcoming_bills (db : DB) (window_start window_end : Date) :
    List UpcomingEntry :=
  let all_bills := sortBy (fun a b => charListLt a.payee.data b.payee.data)
    (db.bills.filter Bill.active)
  let out := all_bills.filterMap fun b =>
    let freq := pyLower (if b.frequency = "" then "monthly" else b.frequency)
    if freq = "monthly" ∧ truthy b.due_day = true then
      let due := next_monthly_due (b.due_day.getD 0 : Int) window_start
      if window_start.le due ∧ due.le window_end then
        some ⟨b, due, is_bill_paid db b.id due, is_bill_ignored db b.id due⟩
      else none
    else if freq = "yearly" ∧ truthy b.due_month = true ∧ truthy b.due_dom = true then
      let due := next_yearly_due (b.due_month.getD 0 : Int)
        (b.due_dom.getD 0 : Int) window_start
      if window_start.le due ∧ due.le window_end then
        some ⟨b, due, is_bill_paid db b.id due, is_bill_ignored db b.id due⟩
      else none
    else none
  sortBy entryLt out

/-- `ORDER BY c_id ASC, id ASC`, as a reflexive total order. -/
def upNeighborLe (a b : Txn) : Prop :=
  a.c_id < b.c_id ∨ (a.c_id = b.c_id ∧ a.id ≤ b.id)

/-- `ORDER BY c_id DESC, id DESC`, as a reflexive total order. -/
def downNeighborLe (a b : Txn) : Prop :=
  b.c_id < a.c_id ∨ (a.c_id = b.c_id ∧ b.id ≤ a.id)

instance : DecidableRel upNeighborLe := by
  intro a b; unfold upNeighborLe; infer_instance

instance : DecidableRel downNeighborLe := by
  intro a b; unfold downNeighborLe; infer_instance

/-- `LIMIT 1` of an `ORDER BY` given by the total preorder `le`: a least
element of the list. -/
def pickFirst (le : α → α → Prop) [DecidableRel le] : List α → Option α
  | [] => none
  | x :: xs =>
    match pickFirst le xs with
    | none => some x
    | some y => if le x y then some x else some y

/-- `UPDATE transactions SET c_id=%s WHERE id=%s` (no account filter in the
source; `id` is the primary key). -/
def set_c_id (txns : List Txn) (tid : Nat) (v : Int) : List Txn :=
  txns.map fun t => if t.id = tid then { t with c_id := v } else t

/-- `move_txn_up` from `app/db.py`: read the target's `c_id`, find the row
of the same account with the least strictly greater `c_id` (ties by least
id), and swap the two keys.  `none` models the `TypeError` raised by
`fetchone()[0]` when the transaction is not in the account. -/
def move_txn_up (txns : List Txn) (account_id txn_id : Nat) :
    Option (List Txn) :=
  match txns.find? fun t => decide (t.id = txn_id ∧ t.acc_id = account_id) with
  | none => none
  | some t =>
    let cur_idx := t.c_id
    match pickFirst upNeighborLe
        (txns.filter fun u => decide (u.acc_id = account_id ∧ cur_idx < u.c_id)) with
    | none => some txns
    | some prev =>
      some (set_c_id (set_c_id txns txn_id prev.c_id) prev.id cur_idx)

/-- `move_txn_down` from `app/db.py`: symmetric to `move_txn_up`, with the
greatest strictly smaller `c_id` (ties by greatest id). -/
def move_txn_down (txns : List Txn) (account_id txn_id : Nat) :
    Option (List Txn) :=
  match txns.find? fun t => decide (t.id = txn_id ∧ t.acc_id = account_id) with
  | none => none
  | some t =>
    let cur_idx := t.c_id
    match pickFirst downNeighborLe
        (txns.filter fun u => decide (u.acc_id = account_id ∧ u.c_id < cur_idx)) with
    | none => some txns
    | some nxt =>
      some (set_c_id (set_c_id txns txn_id nxt.c_id) nxt.id cur_idx)

/-- `list_transactions` ordering for one account:
`ORDER BY c_id DESC, date DESC, id DESC`. -/
def txnDisplayLt (a b : Txn) : Bool :=
  decide (b.c_id < a.c_id) ||
    (decide (a.c_id = b.c_id) && (decide (b.occurred_on.lt a.occurred_on) ||
      (decide (a.occurred_on = b.occurred_on) && decide (b.id < a.id))))

/-- The ordered sequence of one account's transactions as displayed. -/
def list_transactions_order (txns : List Txn) (account_id : Nat) : List Txn :=
  sortBy txnDisplayLt (txns.filter fun t => decide (t.acc_id = account_id))

/-- **C3**: for every anchor and reference date, the pay window returned by
`get_pay_window` satisfies `start ≤ today ≤ end` and `end - start = 13`
(floor division makes this hold also for reference dates before the
anchor), and the window of `today + 14` starts exactly one day after the
window of `today` ends and ends 14 days later — consecutive,
non-overlapping windows partitioning the date line. -/
theorem get_pay_window_partition (anchor today : Int) :
    (get_pay_window anchor today).1 ≤ today ∧
    today ≤ (get_pay_window anchor today).2 ∧
    (get_pay_window anchor today).2 - (get_pay_window anchor today).1 = 13 ∧
    (get_pay_window anchor (today + 14)).1 = (get_pay_window anchor today).2 + 1 ∧
    (get_pay_window anchor (today + 14)).2 = (get_pay_window anchor today).2 + 14 := by
  have hfd : ∀ x : Int, Int.fdiv x 14 = x / 14 := fun x =>
    Int.fdiv_eq_ediv x (by decide)
  simp only [get_pay_window, hfd]
  refine ⟨by omega, by omega, by omega, ?_, ?_⟩ <;>
    · have h4 : today + 14 - anchor = today - anchor + 1 * 14 := by ring
      have h5 : (today + 14 - anchor) / 14 = (today - anchor) / 14 + 1 := by
        rw [h4, Int.add_mul_ediv_right _ _ (by decide : (14 : Int) ≠ 0)]
      omega

/-- **C7**: `_last_dom` follows the Gregorian leap rule in February, and
day-of-month clamping gives `next_monthly_due(31, 2024-02-15) = 2024-02-29`
(leap year) and `next_monthly_due(31, 2023-02-15) = 2023-02-28`. -/
theorem last_dom_gregorian_clamping :
    (∀ y, last_dom y 2 = if y % 400 = 0 ∨ (y % 4 = 0 ∧ y % 100 ≠ 0) then 29 else 28) ∧
    next_monthly_due 31 ⟨2024, 2, 15⟩ = ⟨2024, 2, 29⟩ ∧
    next_monthly_due 31 ⟨2023, 2, 15⟩ = ⟨2023, 2, 28⟩ := by
  refine ⟨fun y => ?_, by decide, by decide⟩
  simp [last_dom]

/-- **C8**: for every account, available minus posted (as computed by
`account_header`) equals the sum of the amounts of exactly the pending
transactions, in exact fixed-point arithmetic. -/
theorem account_header_balance_consistency (balance : Int) (txns : List Txn) :
    (account_header balance txns).2 - (account_header balance txns).1 =
      ((txns.filter fun t => t.pending).map Txn.amount).sum := by
  simp only [account_header]
  induction txns with
  | nil => simp
  | cons t ts ih =>
    rcases Bool.eq_false_or_eq_true t.pending with h | h <;>
      simp only [List.map_cons, List.sum_cons, List.filter_cons, h, if_true,
        if_false, Bool.false_eq_true, ite_false, ite_true] <;>
      simp at ih ⊢ <;> omega

/-- **C9**: sign normalization is idempotent: renormalizing an already
normalized amount with the same category yields the same value, the sign
being decided by whether the category label starts with `expense`. -/
theorem normalized_amount_idempotent (tbl : List (Nat × String)) (a : Int)
    (c : Nat) :
    normalized_amount_for_type tbl (normalized_amount_for_type tbl a c) c =
      normalized_amount_for_type tbl a c := by
  unfold normalized_amount_for_type
  by_cases h1 : strStarts (pyLower (pyStrip (lookup_type_text tbl c))) "expense" = true
  · simp [h1, abs_neg, abs_abs]
  · by_cases h2 : strStarts (pyLower (pyStrip (lookup_type_text tbl c))) "deposit" = true <;>
      simp [h1, h2, abs_abs]

/-! ### Helper lemmas about payments upserts -/

theorem forall2_map_self {α β : Type} (R : α → β → Prop) (f : α → β)
    (l : List α) (h : ∀ a ∈ l, R a (f a)) : List.Forall₂ R l (l.map f) := by
  induction l with
  | nil => simp
  | cons x xs ih =>
    exact List.Forall₂.cons (h x (by simp)) (ih fun a ha => h a (by simp [ha]))

theorem payKey_true_iff (bid : Nat) (due : Date) (p : Payment) :
    payKey bid due p = true ↔ p.bill_id = bid ∧ p.due_date = due := by
  simp [payKey]

/-- Updates that keep the key and insertions that carry it leave exactly one
row with the key after an upsert, provided the unique constraint held. -/
theorem count_pair_upsert (ps : List Payment) (bid : Nat) (due : Date)
    (upd : Payment → Payment) (ins : Payment)
    (hupd : ∀ p, (upd p).bill_id = p.bill_id ∧ (upd p).due_date = p.due_date)
    (hins : ins.bill_id = bid ∧ ins.due_date = due)
    (h : count_pair ps bid due ≤ 1) :
    count_pair (upsert_payment ps bid due upd ins) bid due = 1 := by
  have hkey : ∀ p, payKey bid due (if payKey bid due p then upd p else p) =
      payKey bid due p := by
    intro p
    by_cases hp : payKey bid due p = true
    · simp only [hp, if_true]
      simp only [payKey_true_iff] at hp ⊢
      exact ⟨(hupd p).1.trans hp.1, (hupd p).2.trans hp.2⟩
    · simp [hp]
  unfold upsert_payment
  by_cases hany : ps.any (payKey bid due) = true
  · simp only [hany, if_true]
    have hcnt : count_pair (ps.map fun p => if payKey bid due p then upd p else p)
        bid due = count_pair ps bid due := by
      unfold count_pair
      rw [List.filter_map, List.length_map]
      exact congrArg List.length
        (List.filter_congr fun p _ => by simpa [Function.comp] using hkey p)
    rw [hcnt]
    have hpos : 1 ≤ count_pair ps bid due := by
      rcases List.any_eq_true.mp hany with ⟨p, hp, hpk⟩
      unfold count_pair
      have : p ∈ ps.filter (payKey bid due) := List.mem_filter.mpr ⟨hp, hpk⟩
      exact List.length_pos.mpr fun hnil => by simp [hnil] at this
    omega
  · simp only [hany, if_false, Bool.false_eq_true]
    unfold count_pair
    have hz : ps.filter (payKey bid due) = [] := by
      rw [List.filter_eq_nil_iff]
      intro p hp hpk
      exact hany (List.any_eq_true.mpr ⟨p, hp, hpk⟩)
    simp [List.filter_append, hz, payKey_true_iff, hins.1, hins.2]

/-- After any upsert whose update keeps the key and whose insert carries it,
a row with the key exists. -/
theorem any_payKey_upsert (ps : List Payment) (bid : Nat) (due : Date)
    (upd : Payment → Payment) (ins : Payment)
    (hupd : ∀ p, (upd p).bill_id = p.bill_id ∧ (upd p).due_date = p.due_date)
    (hins : ins.bill_id = bid ∧ ins.due_date = due) :
    (upsert_payment ps bid due upd ins).any (payKey bid due) = true := by
  unfold upsert_payment
  by_cases hany : ps.any (payKey bid due) = true
  · simp only [hany, if_true]
    rcases List.any_eq_true.mp hany with ⟨p, hp, hpk⟩
    refine List.any_eq_true.mpr ⟨if payKey bid due p then upd p else p, List.mem_map_of_mem _ hp, ?_⟩
    simp only [hpk, if_true]
    simp only [payKey_true_iff] at hpk ⊢
    exact ⟨(hupd p).1.trans hpk.1, (hupd p).2.trans hpk.2⟩
  · simp only [hany, if_false, Bool.false_eq_true]
    refine List.any_eq_true.mpr ⟨ins, by simp, ?_⟩
    simp [payKey_true_iff, hins.1, hins.2]

/-- `_is_bill_paid` is true after `set_bill_ignored`, whatever the flag. -/
theorem is_bill_paid_after_set_bill_ignored (db : DB) (bid : Nat) (due : Date)
    (ign : Bool) : is_bill_paid (set_bill_ignored db bid due ign) bid due = true := by
  unfold is_bill_paid set_bill_ignored
  exact any_payKey_upsert _ _ _ _ _ (fun p => ⟨rfl, rfl⟩) ⟨rfl, rfl⟩

/-- **C10**: `set_bill_ignored` on a pair that already has a payment record
changes only that record's `ignored` flag — its `amount` and `paid_at`, and
every other row, are untouched (stated row-by-row via `Forall₂`); on a pair
with no record it appends a fresh row with zero amount, no paid timestamp
and the given flag. -/
theorem set_bill_ignored_frame (db : DB) (bill_id : Nat) (due_date : Date)
    (ign : Bool) :
    (is_bill_paid db bill_id due_date = true →
      List.Forall₂ (fun old new : Payment =>
        new.bill_id = old.bill_id ∧ new.due_date = old.due_date ∧
        new.amount = old.amount ∧ new.paid_at = old.paid_at ∧
        new.ignored = (if old.bill_id = bill_id ∧ old.due_date = due_date
          then ign else old.ignored))
        db.payments (set_bill_ignored db bill_id due_date ign).payments) ∧
    (is_bill_paid db bill_id due_date = false →
      (set_bill_ignored db bill_id due_date ign).payments =
        db.payments ++ [⟨bill_id, due_date, 0, none, ign⟩]) := by
  constructor
  · intro hpaid
    unfold set_bill_ignored upsert_payment
    unfold is_bill_paid at hpaid
    simp only [hpaid, if_true]
    refine forall2_map_self _ _ _ fun p hp => ?_
    by_cases hk : payKey bill_id due_date p = true
    · have hk' := (payKey_true_iff _ _ _).mp hk
      simp [hk, hk']
    · have hk' : ¬ (p.bill_id = bill_id ∧ p.due_date = due_date) := by
        rw [← payKey_true_iff]; simp [hk]
      simp [hk, hk']
  · intro hnot
    unfold set_bill_ignored upsert_payment
    unfold is_bill_paid at hnot
    simp [hnot]

/-- Two sample payment rows used by concrete instances below. -/
def samplePayments : List Payment :=
  [⟨1, ⟨2024, 1, 25⟩, 500, some 3, false⟩, ⟨2, ⟨2024, 1, 25⟩, 700, none, true⟩]

/-- A database state whose `bill_payments` has a row for `(1, 2024-01-25)`. -/
def dbExisting : DB := ⟨[], [], [], [], samplePayments, []⟩

/-- A database state with no payment rows. -/
def dbFresh : DB := ⟨[], [], [], [], [], []⟩

/-- Witness for C10: both branches evaluated on concrete states. -/
theorem set_bill_ignored_frame_witness :
    (is_bill_paid dbExisting 1 ⟨2024, 1, 25⟩ = true) ∧
    List.Forall₂ (fun old new : Payment =>
      new.bill_id = old.bill_id ∧ new.due_date = old.due_date ∧
      new.amount = old.amount ∧ new.paid_at = old.paid_at ∧
      new.ignored = (if old.bill_id = 1 ∧ old.due_date = ⟨2024, 1, 25⟩
        then true else old.ignored))
      dbExisting.payments (set_bill_ignored dbExisting 1 ⟨2024, 1, 25⟩ true).payments ∧
    (is_bill_paid dbFresh 1 ⟨2024, 1, 25⟩ = false) ∧
    (set_bill_ignored dbFresh 1 ⟨2024, 1, 25⟩ true).payments =
      dbFresh.payments ++ [⟨1, ⟨2024, 1, 25⟩, 0, none, true⟩] :=
  ⟨by decide,
   (set_bill_ignored_frame dbExisting 1 ⟨2024, 1, 25⟩ true).1 (by decide),
   by decide,
   (set_bill_ignored_frame dbFresh 1 ⟨2024, 1, 25⟩ true).2 (by decide)⟩

/-- A bill with no linked account (`account_id = NULL`), as `add_bill`
permits, together with populated lookup tables. -/
def dbNoAcct : DB :=
  ⟨[(1, "Expense")], [(1, "N/A")], [(1, "Bills")],
   [⟨1, "Gym", "monthly", 3000, 0, none, some 12, none, none, true, ""⟩],
   [], []⟩

/-- **C2**: contrary to the claim, `mark_bill_paid` on a bill with no linked
account does not skip the ledger-transaction side effect silently: after
committing the payment upsert it evaluates `int(account_id)` on `None`,
which raises `TypeError` — the operation crashes with the upsert already
committed (autocommit), and no transaction row is created. -/
theorem mark_bill_paid_unlinked_crashes :
    mark_bill_paid dbNoAcct 1 ⟨2024, 1, 12⟩ 0 =
      .error { dbNoAcct with
        payments := [⟨1, ⟨2024, 1, 12⟩, 3000, some 0, false⟩] } := by
  rfl

/-! ### The state produced by a successful `mark_bill_paid` -/

/-- The state after `mark_bill_paid` when the bill row is found and has a
linked account: the payment upsert followed by the synthesized ledger
transaction. -/
def mark_paid_state (db : DB) (bill_id : Nat) (due : Date) (now : Nat)
    (b : Bill) (acc : Nat) : DB :=
  add_transaction
    { db with payments :=
        (upsert_payment db.payments bill_id due
          (fun p => { p with amount := b.amount_due, paid_at := some now, ignored := false })
          ⟨bill_id, due, b.amount_due, some now, false⟩) }
    acc (lookup_expense_id db.trans_type) b.payee
    (lookup_by_text db.trans_method "N/A") (lookup_by_text db.trans_cat "Bills")
    b.amount_due due false

theorem mark_bill_paid_linked (db : DB) (bill_id : Nat) (due : Date)
    (now : Nat) (b : Bill) (acc : Nat)
    (hfind : (db.bills.find? fun x => decide (x.id = bill_id)) = some b)
    (hacc : b.account_id = some acc) :
    mark_bill_paid db bill_id due now =
      .ok (mark_paid_state db bill_id due now b acc) := by
  unfold mark_bill_paid mark_paid_state
  rw [hfind]
  simp only [hacc]

theorem mark_paid_state_bills (db : DB) (bill_id : Nat) (due : Date)
    (now : Nat) (b : Bill) (acc : Nat) :
    (mark_paid_state db bill_id due now b acc).bills = db.bills := rfl

theorem mark_paid_state_payments (db : DB) (bill_id : Nat) (due : Date)
    (now : Nat) (b : Bill) (acc : Nat) :
    (mark_paid_state db bill_id due now b acc).payments =
      upsert_payment db.payments bill_id due
        (fun p => { p with amount := b.amount_due, paid_at := some now, ignored := false })
        ⟨bill_id, due, b.amount_due, some now, false⟩ := rfl

theorem mark_paid_state_txns_length (db : DB) (bill_id : Nat) (due : Date)
    (now : Nat) (b : Bill) (acc : Nat) :
    (mark_paid_state db bill_id due now b acc).txns.length =
      db.txns.length + 1 := by
  simp [mark_paid_state, add_transaction]

/-- **C1 (amended)**: two consecutive `mark_bill_paid` calls on the same
`(bill, due_date)` pair leave exactly one payment record for the pair (the
second call updates instead of duplicating), but a synthesized ledger
transaction is created by *every* call — two transactions in total across
both calls, not one. -/
theorem mark_bill_paid_twice_one_record_two_txns
    (db : DB) (bill_id : Nat) (due : Date) (now1 now2 : Nat) (b : Bill) (acc : Nat)
    (hfind : (db.bills.find? fun x => decide (x.id = bill_id)) = some b)
    (hacc : b.account_id = some acc)
    (hkey : count_pair db.payments bill_id due ≤ 1) :
    ∃ s, mark_bill_paid_twice db bill_id due now1 now2 = Except.ok s ∧
      count_pair s.payments bill_id due = 1 ∧
      s.txns.length = db.txns.length + 2 := by
  have e1 := mark_bill_paid_linked db bill_id due now1 b acc hfind hacc
  have hfind2 : ((mark_paid_state db bill_id due now1 b acc).bills.find?
      fun x => decide (x.id = bill_id)) = some b := by
    rw [mark_paid_state_bills]; exact hfind
  have e2 := mark_bill_paid_linked (mark_paid_state db bill_id due now1 b acc)
    bill_id due now2 b acc hfind2 hacc
  refine ⟨mark_paid_state (mark_paid_state db bill_id due now1 b acc)
    bill_id due now2 b acc, ?_, ?_, ?_⟩
  · unfold mark_bill_paid_twice
    rw [e1]
    simpa [Except.bind] using e2
  · have c1 : count_pair (mark_paid_state db bill_id due now1 b acc).payments
        bill_id due = 1 := by
      rw [mark_paid_state_payments]
      exact count_pair_upsert _ _ _ _ _ (fun p => ⟨rfl, rfl⟩) ⟨rfl, rfl⟩ hkey
    rw [mark_paid_state_payments]
    exact count_pair_upsert _ _ _ _ _ (fun p => ⟨rfl, rfl⟩) ⟨rfl, rfl⟩ c1.le
  · rw [mark_paid_state_txns_length, mark_paid_state_txns_length]

/-- A bill with a linked account, with populated lookup tables and an empty
ledger. -/
def dbLinked : DB :=
  ⟨[(1, "Expense")], [(1, "N/A")], [(1, "Bills")],
   [⟨1, "Rent", "monthly", 5000, 0, some 7, some 1, none, none, true, ""⟩],
   [], []⟩

/-- Counterexample to **C1** as stated: on a fresh state with one linked
bill, marking the same occurrence paid twice leaves one payment record but
creates a ledger transaction on *each* call — the ledger holds 2 rows, not
the single row the claim allows. -/
theorem mark_bill_paid_twice_cex :
    dbLinked.txns.length = 0 ∧
    (mark_bill_paid_twice dbLinked 1 ⟨2024, 1, 7⟩ 0 1).map
      (fun s => (count_pair s.payments 1 ⟨2024, 1, 7⟩, s.txns.length)) =
      Except.ok (1, 2) ∧
    (mark_bill_paid_twice dbLinked 1 ⟨2024, 1, 7⟩ 0 1).map
      (fun s => s.txns.length) ≠ Except.ok (dbLinked.txns.length + 1) := by
  refine ⟨rfl, rfl, fun h => ?_⟩
  have h' : (Except.ok 2 : Except DB Nat) = Except.ok 1 := h
  simp at h'

/-- Witness for the amended C1 at a concrete state. -/
theorem mark_bill_paid_twice_one_record_two_txns_witness :
    ((dbLinked.bills.find? fun x => decide (x.id = 1)) =
      some ⟨1, "Rent", "monthly", 5000, 0, some 7, some 1, none, none, true, ""⟩) ∧
    count_pair dbLinked.payments 1 ⟨2024, 1, 7⟩ ≤ 1 ∧
    (∃ s, mark_bill_paid_twice dbLinked 1 ⟨2024, 1, 7⟩ 0 1 = Except.ok s ∧
      count_pair s.payments 1 ⟨2024, 1, 7⟩ = 1 ∧
      s.txns.length = dbLinked.txns.length + 2) :=
  ⟨by decide, by decide,
   mark_bill_paid_twice_one_record_two_txns dbLinked 1 ⟨2024, 1, 7⟩ 0 1
     ⟨1, "Rent", "monthly", 5000, 0, some 7, some 1, none, none, true, ""⟩ 7
     (by decide) rfl (by decide)⟩

/-! ### Membership lemmas for the sorting stand-ins -/

theorem mem_insertSorted {α : Type} (lt : α → α → Bool) (x a : α)
    (l : List α) : a ∈ insertSorted lt x l ↔ a = x ∨ a ∈ l := by
  induction l with
  | nil => simp [insertSorted]
  | cons y ys ih =>
    unfold insertSorted
    by_cases h : lt x y = true <;> simp [h, ih, or_left_comm]

theorem mem_sortBy {α : Type} (lt : α → α → Bool) (l : List α) (a : α) :
    a ∈ sortBy lt l ↔ a ∈ l := by
  suffices h : ∀ acc, (a ∈ l.foldl (fun acc x => insertSorted lt x acc) acc ↔
      a ∈ acc ∨ a ∈ l) by
    simpa [sortBy] using h []
  induction l with
  | nil => simp
  | cons x xs ih =>
    intro acc
    simp only [List.foldl_cons, ih, mem_insertSorted, List.mem_cons]
    tauto

theorem set_bill_ignored_bills (db : DB) (bid : Nat) (due : Date)
    (ign : Bool) : (set_bill_ignored db bid due ign).bills = db.bills := rfl

/-- **C6**: a `(bill, due_date)` occurrence with no payment record that is
then merely ignored via `set_bill_ignored(..., True)` is reported as paid:
`_is_bill_paid` only tests row existence, the upserted row has zero amount
and no paid timestamp, and `upcoming_bills` lists the occurrence with
`paid = True`. -/
theorem ignored_only_occurrence_reported_paid (db : DB) (b : Bill)
    (ws we due : Date) (hmem : b ∈ db.bills) (hact : b.active = true)
    (hfreq : pyLower (if b.frequency = "" then "monthly" else b.frequency) = "monthly")
    (hday : truthy b.due_day = true)
    (hdue : due = next_monthly_due (b.due_day.getD 0 : Int) ws)
    (hwin : ws.le due ∧ due.le we)
    (hnone : is_bill_paid db b.id due = false) :
    is_bill_paid (set_bill_ignored db b.id due true) b.id due = true ∧
    (∃ p ∈ (set_bill_ignored db b.id due true).payments,
      p.bill_id = b.id ∧ p.due_date = due ∧ p.amount = 0 ∧
      p.paid_at = none ∧ p.ignored = true) ∧
    (∃ e ∈ upcoming_bills (set_bill_ignored db b.id due true) ws we,
      e.bill = b ∧ e.next_due = due ∧ e.paid = true) := by
  set db' := set_bill_ignored db b.id due true with hdb'
  refine ⟨is_bill_paid_after_set_bill_ignored db b.id due true, ?_, ?_⟩
  · have happ : db'.payments = db.payments ++ [⟨b.id, due, 0, none, true⟩] := by
      unfold is_bill_paid at hnone
      simp [hdb', set_bill_ignored, upsert_payment, hnone]
    refine ⟨⟨b.id, due, 0, none, true⟩, ?_, rfl, rfl, rfl, rfl, rfl⟩
    rw [happ]
    simp
  · refine ⟨⟨b, due, is_bill_paid db' b.id due, is_bill_ignored db' b.id due⟩, ?_,
      rfl, rfl, is_bill_paid_after_set_bill_ignored db b.id due true⟩
    unfold upcoming_bills
    rw [mem_sortBy, List.mem_filterMap]
    refine ⟨b, ?_, ?_⟩
    · rw [mem_sortBy, List.mem_filter, set_bill_ignored_bills]
      exact ⟨hmem, hact⟩
    · simp only [hfreq, ← hdue]
      rw [if_pos ⟨trivial, hday⟩, if_pos hwin]

/-- An active monthly bill due on the 25th, not linked to any account. -/
def billInternet : Bill :=
  ⟨1, "Internet", "monthly", 6000, 0, none, some 25, none, none, true, ""⟩

/-- A database state holding only `billInternet`. -/
def dbBillOnly : DB := ⟨[], [], [], [billInternet], [], []⟩

/-- Witness for C6 on the spec's end-to-end scenario window
(2024-01-19 .. 2024-02-01, due 2024-01-25). -/
theorem ignored_only_occurrence_reported_paid_witness :
    (billInternet ∈ dbBillOnly.bills) ∧
    (is_bill_paid dbBillOnly billInternet.id ⟨2024, 1, 25⟩ = false) ∧
    (is_bill_paid (set_bill_ignored dbBillOnly billInternet.id ⟨2024, 1, 25⟩ true)
      billInternet.id ⟨2024, 1, 25⟩ = true ∧
    (∃ p ∈ (set_bill_ignored dbBillOnly billInternet.id ⟨2024, 1, 25⟩ true).payments,
      p.bill_id = billInternet.id ∧ p.due_date = ⟨2024, 1, 25⟩ ∧ p.amount = 0 ∧
      p.paid_at = none ∧ p.ignored = true) ∧
    (∃ e ∈ upcoming_bills (set_bill_ignored dbBillOnly billInternet.id ⟨2024, 1, 25⟩ true)
        ⟨2024, 1, 19⟩ ⟨2024, 2, 1⟩,
      e.bill = billInternet ∧ e.next_due = ⟨2024, 1, 25⟩ ∧ e.paid = true)) :=
  ⟨by decide, by decide,
   ignored_only_occurrence_reported_paid dbBillOnly billInternet
     ⟨2024, 1, 19⟩ ⟨2024, 2, 1⟩ ⟨2024, 1, 25⟩ (by decide) rfl (by decide)
     (by decide) (by decide) (by decide) (by decide)⟩

/-! ### C5: `_next_monthly_due` returns the soonest matching date -/

theorem last_dom_ge_28 (y m : Nat) : 28 ≤ last_dom y m := by
  unfold last_dom
  split_ifs <;> omega

/-- Closed form of `next_monthly_due` on components, once the defensive
clamp is a no-op. -/
theorem next_monthly_due_mk (dom : Int) (fy fm fdy : Nat) (h1 : 1 ≤ dom)
    (h31 : dom ≤ 31) :
    next_monthly_due dom ⟨fy, fm, fdy⟩ =
      if fdy ≤ dom.toNat then
        ⟨fy, fm, min dom.toNat (last_dom fy fm)⟩
      else
        ⟨fy + (if fm = 12 then 1 else 0),
         if fm = 12 then 1 else fm + 1,
         min dom.toNat (last_dom (fy + (if fm = 12 then 1 else 0))
           (if fm = 12 then 1 else fm + 1))⟩ := by
  unfold next_monthly_due
  have h : max 1 (min 31 dom) = dom := by omega
  rw [h]

/-- **C5**: for `day_of_month` in 1..31, `_next_monthly_due` returns a valid
date, never strictly before `from_date`, whose day-of-month equals the
requested day clamped to its month's length, and it is the soonest such
date on or after `from_date`; the branch comparison is made against the raw
requested day before clamping (current month iff `from_date.day <= dom`,
otherwise next month, rolling the year from December). -/
theorem next_monthly_due_spec (dom : Int) (fd : Date)
    (hdom : 1 ≤ dom ∧ dom ≤ 31) (hfd : fd.valid) :
    (next_monthly_due dom fd).valid ∧
    fd.le (next_monthly_due dom fd) ∧
    (next_monthly_due dom fd).day = min dom.toNat
      (last_dom (next_monthly_due dom fd).year (next_monthly_due dom fd).month) ∧
    (∀ d : Date, d.valid → fd.le d →
      d.day = min dom.toNat (last_dom d.year d.month) →
      (next_monthly_due dom fd).le d) := by
  obtain ⟨hdom1, hdom31⟩ := hdom
  obtain ⟨fy, fm, fdy⟩ := fd
  have hfd' : 1 ≤ fm ∧ fm ≤ 12 ∧ 1 ≤ fdy ∧ fdy ≤ last_dom fy fm := hfd
  obtain ⟨hm1, hm12, hd1, hdL⟩ := hfd'
  rw [next_monthly_due_mk dom fy fm fdy hdom1 hdom31]
  have hD1 : 1 ≤ dom.toNat := by omega
  have hD31 : dom.toNat ≤ 31 := by omega
  by_cases hb : fdy ≤ dom.toNat
  · rw [if_pos hb]
    refine ⟨?_, ?_, rfl, ?_⟩
    · show 1 ≤ fm ∧ fm ≤ 12 ∧ 1 ≤ min dom.toNat (last_dom fy fm) ∧
        min dom.toNat (last_dom fy fm) ≤ last_dom fy fm
      have := last_dom_ge_28 fy fm
      omega
    · show fy < fy ∨ (fy = fy ∧ fm < fm) ∨
        (fy = fy ∧ fm = fm ∧ fdy ≤ min dom.toNat (last_dom fy fm))
      omega
    · intro d hdv hfle hdd
      obtain ⟨dy, dm, dd⟩ := d
      have hdv' : 1 ≤ dm ∧ dm ≤ 12 ∧ 1 ≤ dd ∧ dd ≤ last_dom dy dm := hdv
      have hfle' : fy < dy ∨ (fy = dy ∧ fm < dm) ∨
          (fy = dy ∧ fm = dm ∧ fdy ≤ dd) := hfle
      have hdd' : dd = min dom.toNat (last_dom dy dm) := hdd
      show fy < dy ∨ (fy = dy ∧ fm < dm) ∨
        (fy = dy ∧ fm = dm ∧ min dom.toNat (last_dom fy fm) ≤ dd)
      rcases hfle' with h | ⟨hy, hmlt⟩ | ⟨hy, hmeq, hdle⟩
      · omega
      · omega
      · subst hy; subst hmeq
        omega
  · rw [if_neg hb]
    by_cases hm : fm = 12
    · subst hm
      simp only [if_pos]
      refine ⟨?_, ?_, by trivial, ?_⟩
      · show 1 ≤ 1 ∧ 1 ≤ 12 ∧ 1 ≤ min dom.toNat (last_dom (fy + 1) 1) ∧
          min dom.toNat (last_dom (fy + 1) 1) ≤ last_dom (fy + 1) 1
        have := last_dom_ge_28 (fy + 1) 1
        omega
      · show fy < fy + 1 ∨ (fy = fy + 1 ∧ 12 < 1) ∨
          (fy = fy + 1 ∧ 12 = 1 ∧ fdy ≤ min dom.toNat (last_dom (fy + 1) 1))
        omega
      · intro d hdv hfle hdd
        obtain ⟨dy, dm, dd⟩ := d
        have hdv' : 1 ≤ dm ∧ dm ≤ 12 ∧ 1 ≤ dd ∧ dd ≤ last_dom dy dm := hdv
        have hfle' : fy < dy ∨ (fy = dy ∧ 12 < dm) ∨
            (fy = dy ∧ 12 = dm ∧ fdy ≤ dd) := hfle
        have hdd' : dd = min dom.toNat (last_dom dy dm) := hdd
        show fy + 1 < dy ∨ (fy + 1 = dy ∧ 1 < dm) ∨
          (fy + 1 = dy ∧ 1 = dm ∧ min dom.toNat (last_dom (fy + 1) 1) ≤ dd)
        rcases hfle' with h | ⟨hy, hmlt⟩ | ⟨hy, hmeq, hdle⟩
        · rcases Nat.lt_or_ge (fy + 1) dy with h2 | h2
          · omega
          · have hy' : dy = fy + 1 := by omega
            subst hy'
            rcases Nat.lt_or_ge 1 dm with h3 | h3
            · omega
            · have hm' : dm = 1 := by omega
              subst hm'
              omega
        · -- d in the same year but a month after December: impossible
          omega
        · -- d still in December of the same year: its day is clamped to
          -- at most dom, yet fd.day > dom and fd <= d, contradiction
          omega
    · simp only [if_neg hm, Nat.add_zero]
      refine ⟨?_, ?_, by trivial, ?_⟩
      · show 1 ≤ fm + 1 ∧ fm + 1 ≤ 12 ∧ 1 ≤ min dom.toNat (last_dom fy (fm + 1)) ∧
          min dom.toNat (last_dom fy (fm + 1)) ≤ last_dom fy (fm + 1)
        have := last_dom_ge_28 fy (fm + 1)
        omega
      · show fy < fy ∨ (fy = fy ∧ fm < fm + 1) ∨
          (fy = fy ∧ fm = fm + 1 ∧ fdy ≤ min dom.toNat (last_dom fy (fm + 1)))
        omega
      · intro d hdv hfle hdd
        obtain ⟨dy, dm, dd⟩ := d
        have hdv' : 1 ≤ dm ∧ dm ≤ 12 ∧ 1 ≤ dd ∧ dd ≤ last_dom dy dm := hdv
        have hfle' : fy < dy ∨ (fy = dy ∧ fm < dm) ∨
            (fy = dy ∧ fm = dm ∧ fdy ≤ dd) := hfle
        have hdd' : dd = min dom.toNat (last_dom dy dm) := hdd
        show fy < dy ∨ (fy = dy ∧ fm + 1 < dm) ∨
          (fy = dy ∧ fm + 1 = dm ∧ min dom.toNat (last_dom fy (fm + 1)) ≤ dd)
        rcases hfle' with h | ⟨hy, hmlt⟩ | ⟨hy, hmeq, hdle⟩
        · omega
        · subst hy
          rcases Nat.lt_or_ge (fm + 1) dm with h2 | h2
          · omega
          · have hm' : dm = fm + 1 := by omega
            subst hm'
            omega
        · -- d in the same month as fd: its day is clamped to at most dom,
          -- yet fd.day > dom and fd <= d, contradiction
          omega

/-- Witness for C5: the quirk month-end input (dom 31 from 2023-04-30,
where clamping meets the reference day). -/
theorem next_monthly_due_spec_witness :
    ((1 : Int) ≤ 31 ∧ (31 : Int) ≤ 31) ∧ (Date.valid ⟨2023, 4, 30⟩) ∧
    ((next_monthly_due 31 ⟨2023, 4, 30⟩).valid ∧
    Date.le ⟨2023, 4, 30⟩ (next_monthly_due 31 ⟨2023, 4, 30⟩) ∧
    (next_monthly_due 31 ⟨2023, 4, 30⟩).day = min (31 : Int).toNat
      (last_dom (next_monthly_due 31 ⟨2023, 4, 30⟩).year
        (next_monthly_due 31 ⟨2023, 4, 30⟩).month) ∧
    (∀ d : Date, d.valid → Date.le ⟨2023, 4, 30⟩ d →
      d.day = min (31 : Int).toNat (last_dom d.year d.month) →
      (next_monthly_due 31 ⟨2023, 4, 30⟩).le d)) :=
  ⟨⟨by decide, by decide⟩, by decide,
   next_monthly_due_spec 31 ⟨2023, 4, 30⟩ ⟨by decide, by decide⟩ (by decide)⟩

/-! ### C4: infrastructure for the ordering engine -/

theorem pickFirst_eq_none {α : Type} (le : α → α → Prop) [DecidableRel le] :
    ∀ l : List α, pickFirst le l = none → l = [] := by
  intro l h
  cases l with
  | nil => rfl
  | cons a as =>
    unfold pickFirst at h
    cases hrec : pickFirst le as with
    | none => rw [hrec] at h; cases h
    | some y =>
      rw [hrec] at h
      dsimp only at h
      by_cases hle : le a y
      · rw [if_pos hle] at h; cases h
      · rw [if_neg hle] at h; cases h

theorem pickFirst_mem {α : Type} (le : α → α → Prop) [DecidableRel le] :
    ∀ (l : List α) (x : α), pickFirst le l = some x → x ∈ l := by
  intro l
  induction l with
  | nil => intro x h; cases h
  | cons a as ih =>
    intro x h
    unfold pickFirst at h
    cases hrec : pickFirst le as with
    | none =>
      rw [hrec] at h
      dsimp only at h
      injection h with h
      rw [← h]
      exact List.mem_cons_self a as
    | some y =>
      rw [hrec] at h
      dsimp only at h
      by_cases hle : le a y
      · rw [if_pos hle] at h
        injection h with h
        rw [← h]
        exact List.mem_cons_self a as
      · rw [if_neg hle] at h
        injection h with h
        rw [← h]
        exact List.mem_cons_of_mem a (ih y hrec)

theorem pickFirst_min {α : Type} (le : α → α → Prop) [DecidableRel le]
    (htot : ∀ a b, le a b ∨ le b a)
    (htrans : ∀ {a b c}, le a b → le b c → le a c) :
    ∀ (l : List α) (x : α), pickFirst le l = some x → ∀ v ∈ l, le x v := by
  intro l
  induction l with
  | nil => intro x h; cases h
  | cons a as ih =>
    intro x h v hv
    unfold pickFirst at h
    cases hrec : pickFirst le as with
    | none =>
      rw [hrec] at h
      dsimp only at h
      injection h with h
      have hnil : as = [] := pickFirst_eq_none le as hrec
      subst hnil
      rcases List.mem_cons.mp hv with h2 | h2
      · rw [← h, h2]
        rcases htot a a with h3 | h3 <;> exact h3
      · cases h2
    | some y =>
      rw [hrec] at h
      dsimp only at h
      by_cases hle : le a y
      · rw [if_pos hle] at h
        injection h with h
        rcases List.mem_cons.mp hv with h2 | h2
        · rw [← h, h2]
          rcases htot a a with h3 | h3 <;> exact h3
        · rw [← h]
          exact htrans hle (ih y hrec v h2)
      · rw [if_neg hle] at h
        injection h with h
        rcases List.mem_cons.mp hv with h2 | h2
        · rw [← h, h2]
          rcases htot a y with h3 | h3
          · exact absurd h3 hle
          · exact h3
        · rw [← h]
          exact ih y hrec v h2

theorem pickFirst_isSome {α : Type} (le : α → α → Prop) [DecidableRel le]
    (a : α) (l : List α) (ha : a ∈ l) : ∃ x, pickFirst le l = some x := by
  cases hrec : pickFirst le l with
  | none => exact absurd ha (by rw [pickFirst_eq_none le l hrec]; simp)
  | some y => exact ⟨y, rfl⟩

theorem upNeighborLe_total (a b : Txn) : upNeighborLe a b ∨ upNeighborLe b a := by
  unfold upNeighborLe
  omega

theorem upNeighborLe_trans {a b c : Txn} (h1 : upNeighborLe a b)
    (h2 : upNeighborLe b c) : upNeighborLe a c := by
  unfold upNeighborLe at h1 h2 ⊢
  omega

theorem downNeighborLe_total (a b : Txn) :
    downNeighborLe a b ∨ downNeighborLe b a := by
  unfold downNeighborLe
  omega

theorem downNeighborLe_trans {a b c : Txn} (h1 : downNeighborLe a b)
    (h2 : downNeighborLe b c) : downNeighborLe a c := by
  unfold downNeighborLe at h1 h2 ⊢
  omega

theorem txn_eq_of_id {txns : List Txn} (hids : (txns.map Txn.id).Nodup)
    {u v : Txn} (hu : u ∈ txns) (hv : v ∈ txns) (h : u.id = v.id) : u = v :=
  List.inj_on_of_nodup_map hids hu hv h

theorem txn_eq_of_c_id {txns : List Txn} {acc : Nat}
    (hkeys : ((txns.filter fun u => decide (u.acc_id = acc)).map Txn.c_id).Nodup)
    {u v : Txn} (hu : u ∈ txns) (hv : v ∈ txns) (hua : u.acc_id = acc)
    (hva : v.acc_id = acc) (h : u.c_id = v.c_id) : u = v :=
  List.inj_on_of_nodup_map hkeys
    (List.mem_filter.mpr ⟨hu, by simp [hua]⟩)
    (List.mem_filter.mpr ⟨hv, by simp [hva]⟩) h

theorem find_eq_of_unique {α : Type} (p : α → Bool) (t : α) :
    ∀ l : List α, t ∈ l → p t = true → (∀ u ∈ l, p u = true → u = t) →
      l.find? p = some t := by
  intro l
  induction l with
  | nil => intro ht; cases ht
  | cons a as ih =>
    intro ht hpt huniq
    by_cases hpa : p a = true
    · rw [List.find?_cons_of_pos _ hpa]
      exact congrArg some (huniq a (by simp) hpa)
    · rw [List.find?_cons_of_neg _ hpa]
      rcases List.mem_cons.mp ht with rfl | ht'
      · exact absurd hpt hpa
      · exact ih ht' hpt fun u hu hpu => huniq u (by simp [hu]) hpu

/-- The pair of `UPDATE ... SET c_id` statements of a move, as one per-row
function (`i1 ≠ i2`). -/
def swap_keys (i1 : Nat) (v1 : Int) (i2 : Nat) (v2 : Int) (x : Txn) : Txn :=
  if x.id = i1 then { x with c_id := v1 }
  else if x.id = i2 then { x with c_id := v2 }
  else x

theorem set_set_eq_map_swap (txns : List Txn) (i1 i2 : Nat) (v1 v2 : Int)
    (h : i1 ≠ i2) :
    set_c_id (set_c_id txns i1 v1) i2 v2 =
      txns.map (swap_keys i1 v1 i2 v2) := by
  unfold set_c_id
  rw [List.map_map]
  refine List.map_congr_left fun x _ => ?_
  obtain ⟨xid, xacc, xcid, xp, xt, xn, xm, xc, xa, xo⟩ := x
  simp only [Function.comp_apply]
  unfold swap_keys
  dsimp only
  split_ifs <;> first | rfl | (exfalso; (try dsimp only at *); omega)

theorem swap_keys_id (i1 : Nat) (v1 : Int) (i2 : Nat) (v2 : Int) (x : Txn) :
    (swap_keys i1 v1 i2 v2 x).id = x.id := by
  unfold swap_keys
  split_ifs <;> rfl

theorem swap_keys_acc (i1 : Nat) (v1 : Int) (i2 : Nat) (v2 : Int) (x : Txn) :
    (swap_keys i1 v1 i2 v2 x).acc_id = x.acc_id := by
  unfold swap_keys
  split_ifs <;> rfl

/-- **C4 (amended)**: with pairwise-distinct order keys within the account
(and distinct row ids, as the primary key guarantees), `move_txn_up`
followed by `move_txn_down` on the same transaction restores the exact
transaction table — and hence the displayed ordered sequence — provided the
transaction is not already first, i.e. some row of the account carries a
strictly greater order key.  When it is already first but not alone, the
original claim fails: `move_txn_up` is a no-op but `move_txn_down` still
swaps (see the counterexample). -/
theorem move_up_then_down_restores (txns : List Txn) (acc : Nat) (t : Txn)
    (hids : (txns.map Txn.id).Nodup)
    (hkeys : ((txns.filter fun u => decide (u.acc_id = acc)).map Txn.c_id).Nodup)
    (ht : t ∈ txns) (hacc : t.acc_id = acc)
    (habove : ∃ u ∈ txns, u.acc_id = acc ∧ t.c_id < u.c_id) :
    ((move_txn_up txns acc t.id).bind fun l => move_txn_down l acc t.id) =
      some txns ∧
    ((move_txn_up txns acc t.id).bind fun l => move_txn_down l acc t.id).map
      (fun l => list_transactions_order l acc) =
      some (list_transactions_order txns acc) := by
  have hfind : txns.find? (fun x => decide (x.id = t.id ∧ x.acc_id = acc)) =
      some t := by
    refine find_eq_of_unique _ t txns ht (by simp [hacc]) fun v hv hpv => ?_
    have h' : v.id = t.id ∧ v.acc_id = acc := by simpa using hpv
    exact txn_eq_of_id hids hv ht h'.1
  obtain ⟨u0, hu0mem, hu0acc, hu0gt⟩ := habove
  have hu0filter : u0 ∈ txns.filter fun v => decide (v.acc_id = acc ∧ t.c_id < v.c_id) :=
    List.mem_filter.mpr ⟨hu0mem, by simp [hu0acc, hu0gt]⟩
  obtain ⟨u, hpick⟩ := pickFirst_isSome upNeighborLe u0 _ hu0filter
  have humem' := pickFirst_mem upNeighborLe _ u hpick
  have humem : u ∈ txns := (List.mem_filter.mp humem').1
  have huprop : u.acc_id = acc ∧ t.c_id < u.c_id := by
    simpa using (List.mem_filter.mp humem').2
  obtain ⟨huacc, hugt⟩ := huprop
  have humin := pickFirst_min upNeighborLe upNeighborLe_total
    upNeighborLe_trans _ u hpick
  have hnobetween : ∀ v ∈ txns, v.acc_id = acc → t.c_id < v.c_id →
      ¬ v.c_id < u.c_id := by
    intro v hv hva hvt hvu
    have hvf : v ∈ txns.filter fun w => decide (w.acc_id = acc ∧ t.c_id < w.c_id) :=
      List.mem_filter.mpr ⟨hv, by simp [hva, hvt]⟩
    have hle := humin v hvf
    unfold upNeighborLe at hle
    omega
  have htu : t ≠ u := fun h => by rw [← h] at hugt; omega
  have htuid : t.id ≠ u.id := fun h => htu (txn_eq_of_id hids ht humem h)
  have hswapt : swap_keys t.id u.c_id u.id t.c_id t = { t with c_id := u.c_id } := by
    unfold swap_keys
    rw [if_pos rfl]
  have hswapu : swap_keys t.id u.c_id u.id t.c_id u = { u with c_id := t.c_id } := by
    unfold swap_keys
    rw [if_neg (fun hh : u.id = t.id => htuid hh.symm), if_pos rfl]
  have hswapo : ∀ x : Txn, x.id ≠ t.id → x.id ≠ u.id →
      swap_keys t.id u.c_id u.id t.c_id x = x := by
    intro x h1 h2
    unfold swap_keys
    rw [if_neg h1, if_neg h2]
  have hup : move_txn_up txns acc t.id =
      some (txns.map (swap_keys t.id u.c_id u.id t.c_id)) := by
    unfold move_txn_up
    rw [hfind]
    dsimp only
    rw [hpick]
    dsimp only
    rw [set_set_eq_map_swap txns t.id u.id u.c_id t.c_id htuid]
  have ht'mem : ({ t with c_id := u.c_id } : Txn) ∈
      txns.map (swap_keys t.id u.c_id u.id t.c_id) := by
    rw [← hswapt]
    exact List.mem_map_of_mem _ ht
  have hu'mem : ({ u with c_id := t.c_id } : Txn) ∈
      txns.map (swap_keys t.id u.c_id u.id t.c_id) := by
    rw [← hswapu]
    exact List.mem_map_of_mem _ humem
  have hfind2 : (txns.map (swap_keys t.id u.c_id u.id t.c_id)).find?
      (fun x => decide (x.id = t.id ∧ x.acc_id = acc)) =
      some ({ t with c_id := u.c_id } : Txn) := by
    refine find_eq_of_unique _ _ _ ht'mem (by simp [hacc]) fun v hv hpv => ?_
    have h' : v.id = t.id ∧ v.acc_id = acc := by simpa using hpv
    obtain ⟨w, hw, hwv⟩ := List.mem_map.mp hv
    have hwid : w.id = t.id := by
      rw [← swap_keys_id t.id u.c_id u.id t.c_id w, hwv]
      exact h'.1
    have hwt : w = t := txn_eq_of_id hids hw ht hwid
    rw [← hwv, hwt, hswapt]
  have hu'inf : ({ u with c_id := t.c_id } : Txn) ∈
      (txns.map (swap_keys t.id u.c_id u.id t.c_id)).filter
        (fun v => decide (v.acc_id = acc ∧ v.c_id < u.c_id)) := by
    refine List.mem_filter.mpr ⟨hu'mem, ?_⟩
    simp only [decide_eq_true_eq]
    exact ⟨huacc, hugt⟩
  obtain ⟨r, hpick2⟩ := pickFirst_isSome downNeighborLe _ _ hu'inf
  have hrmem' := pickFirst_mem downNeighborLe _ r hpick2
  have hrmin := pickFirst_min downNeighborLe downNeighborLe_total
    downNeighborLe_trans _ r hpick2
  have hu'min : ∀ v ∈ (txns.map (swap_keys t.id u.c_id u.id t.c_id)).filter
      (fun v => decide (v.acc_id = acc ∧ v.c_id < u.c_id)),
      downNeighborLe ({ u with c_id := t.c_id } : Txn) v := by
    intro v hv
    obtain ⟨hvl1, hvprop⟩ := List.mem_filter.mp hv
    have hvprop' : v.acc_id = acc ∧ v.c_id < u.c_id := by simpa using hvprop
    obtain ⟨w, hw, hwv⟩ := List.mem_map.mp hvl1
    by_cases hw1 : w.id = t.id
    · exfalso
      have hwt : w = t := txn_eq_of_id hids hw ht hw1
      rw [hwt, hswapt] at hwv
      rw [← hwv] at hvprop'
      have hcontra : u.c_id < u.c_id := hvprop'.2
      omega
    · by_cases hw2 : w.id = u.id
      · have hwu : w = u := txn_eq_of_id hids hw humem hw2
        rw [hwu, hswapu] at hwv
        rw [← hwv]
        rcases downNeighborLe_total ({ u with c_id := t.c_id } : Txn)
          ({ u with c_id := t.c_id } : Txn) with h3 | h3 <;> exact h3
      · rw [hswapo w hw1 hw2] at hwv
        subst hwv
        have hwacc : w.acc_id = acc := hvprop'.1
        have hwlt : w.c_id < u.c_id := hvprop'.2
        have hwt : w ≠ t := fun he => hw1 (by rw [he])
        have hwcne : w.c_id ≠ t.c_id := fun he =>
          hwt (txn_eq_of_c_id hkeys hw ht hwacc hacc he)
        have hwlt2 : w.c_id < t.c_id := by
          by_cases hlt : t.c_id < w.c_id
          · exact absurd hwlt (hnobetween w hw hwacc hlt)
          · omega
        unfold downNeighborLe
        left
        exact hwlt2
  have hr1 := hrmin _ hu'inf
  have hr2 := hu'min r hrmem'
  have hrid : r.id = ({ u with c_id := t.c_id } : Txn).id := by
    unfold downNeighborLe at hr1 hr2
    omega
  have hrmem : r ∈ txns.map (swap_keys t.id u.c_id u.id t.c_id) :=
    (List.mem_filter.mp hrmem').1
  have hids1 : ((txns.map (swap_keys t.id u.c_id u.id t.c_id)).map Txn.id).Nodup := by
    rw [List.map_map]
    have hcomp : (Txn.id ∘ swap_keys t.id u.c_id u.id t.c_id) = Txn.id :=
      funext fun x => swap_keys_id _ _ _ _ x
    rw [hcomp]
    exact hids
  have hreq : r = ({ u with c_id := t.c_id } : Txn) :=
    txn_eq_of_id hids1 hrmem hu'mem hrid
  subst hreq
  have hsw2t : swap_keys t.id t.c_id u.id u.c_id ({ t with c_id := u.c_id } : Txn) = t := by
    unfold swap_keys
    dsimp only
    rw [if_pos rfl]
  have hsw2u : swap_keys t.id t.c_id u.id u.c_id ({ u with c_id := t.c_id } : Txn) = u := by
    unfold swap_keys
    dsimp only
    rw [if_neg (fun hh : u.id = t.id => htuid hh.symm), if_pos rfl]
  have hsw2o : ∀ x : Txn, x.id ≠ t.id → x.id ≠ u.id →
      swap_keys t.id t.c_id u.id u.c_id x = x := by
    intro x h1 h2
    unfold swap_keys
    rw [if_neg h1, if_neg h2]
  have hpoint : ∀ x ∈ txns, swap_keys t.id t.c_id u.id u.c_id
      (swap_keys t.id u.c_id u.id t.c_id x) = x := by
    intro x hx
    by_cases hx1 : x.id = t.id
    · rw [txn_eq_of_id hids hx ht hx1, hswapt, hsw2t]
    · by_cases hx2 : x.id = u.id
      · rw [txn_eq_of_id hids hx humem hx2, hswapu, hsw2u]
      · rw [hswapo x hx1 hx2, hsw2o x hx1 hx2]
  have hdown : move_txn_down (txns.map (swap_keys t.id u.c_id u.id t.c_id))
      acc t.id = some txns := by
    unfold move_txn_down
    rw [hfind2]
    dsimp only
    rw [hpick2]
    dsimp only
    rw [set_set_eq_map_swap (txns.map (swap_keys t.id u.c_id u.id t.c_id))
      t.id u.id t.c_id u.c_id htuid]
    rw [List.map_map]
    refine congrArg some ?_
    calc txns.map (swap_keys t.id t.c_id u.id u.c_id ∘
          swap_keys t.id u.c_id u.id t.c_id)
        = txns.map id := List.map_congr_left fun x hx => hpoint x hx
      _ = txns := List.map_id txns
  have hbind : ((move_txn_up txns acc t.id).bind
      fun l => move_txn_down l acc t.id) = some txns := by
    rw [hup]
    exact hdown
  refine ⟨hbind, ?_⟩
  rw [hbind]
  rfl

/-- Two transactions of account 1 with distinct order keys; the first one
(id 1, key 20) is already first in display order. -/
def cexTxns : List Txn :=
  [⟨1, 1, 20, false, 0, "", 0, 0, 0, ⟨2024, 1, 1⟩⟩,
   ⟨2, 1, 10, false, 0, "", 0, 0, 0, ⟨2024, 1, 1⟩⟩]

/-- Counterexample to **C4** as stated: on the already-first transaction
(with a neighbor below), `move_txn_up` is a no-op but `move_txn_down` still
swaps it downward, so up-then-down does not restore the original state or
the displayed order, although keys are pairwise distinct. -/
theorem move_up_then_down_cex :
    (cexTxns.map Txn.id).Nodup ∧
    ((cexTxns.filter fun u => decide (u.acc_id = 1)).map Txn.c_id).Nodup ∧
    (⟨1, 1, 20, false, 0, "", 0, 0, 0, ⟨2024, 1, 1⟩⟩ : Txn) ∈ cexTxns ∧
    ((move_txn_up cexTxns 1 1).bind fun l => move_txn_down l 1 1) ≠
      some cexTxns ∧
    ((move_txn_up cexTxns 1 1).bind fun l => move_txn_down l 1 1).map
      (fun l => list_transactions_order l 1) ≠
      some (list_transactions_order cexTxns 1) := by
  refine ⟨by decide, by decide, by decide, by decide, by decide⟩

/-- Three transactions of account 1, the middle one not first, not last. -/
def witTxns : List Txn :=
  [⟨1, 1, 30, false, 0, "", 0, 0, 0, ⟨2024, 1, 1⟩⟩,
   ⟨2, 1, 20, false, 0, "", 0, 0, 0, ⟨2024, 1, 2⟩⟩,
   ⟨3, 1, 10, false, 0, "", 0, 0, 0, ⟨2024, 1, 3⟩⟩]

/-- Witness for the amended C4 on a concrete three-row account. -/
theorem move_up_then_down_restores_witness :
    ((witTxns.map Txn.id).Nodup ∧
     ((witTxns.filter fun u => decide (u.acc_id = 1)).map Txn.c_id).Nodup ∧
     (⟨2, 1, 20, false, 0, "", 0, 0, 0, ⟨2024, 1, 2⟩⟩ : Txn) ∈ witTxns ∧
     (∃ u ∈ witTxns, u.acc_id = 1 ∧ (20 : Int) < u.c_id)) ∧
    ((move_txn_up witTxns 1 2).bind fun l => move_txn_down l 1 2) =
      some witTxns ∧
    ((move_txn_up witTxns 1 2).bind fun l => move_txn_down l 1 2).map
      (fun l => list_transactions_order l 1) =
      some (list_transactions_order witTxns 1) :=
  ⟨⟨by decide, by decide, by decide, by decide⟩,
   move_up_then_down_restores witTxns 1
     ⟨2, 1, 20, false, 0, "", 0, 0, 0, ⟨2024, 1, 2⟩⟩
     (by decide) (by decide) (by decide) rfl (by decide)⟩

end MyLedger
